import Mathlib

/-!
Verification development for `payload_dumper.py`: a shallow embedding of the
operation-application engine (the operation executor `data_for_op`, the embedded
diff-patch reader `bsdf2_read_patch`, the codec adapter `bsdf2_decompress`, and
the per-partition operation loop of `dump_part`), together with theorems about
the behaviour of these functions.

Bytes are modelled as `Nat` (Python guarantees `0 ≤ b < 256` for every byte of a
`bytes` object).  Byte strings are `List Nat`.  Python exceptions and `sys.exit`
calls are modelled by the error type `PErr`; a Python function that can raise
returns `Except PErr α`.  The mutable output image is modelled as a total
function `Nat → Nat` from byte offsets to byte values (random-access, growable,
zero-filled past the end, per spec §6); `data_for_op` returns the final image
together with an optional error, the image reflecting exactly the writes that
happened before the error was raised.

External collaborators that are not part of this repository (the `bsdiff4`
library's `core.decode_int64` / `core.patch` / `format.MAGIC`, and the
compression libraries `bz2`, `brotli`, `lzma`, `zstandard`, `hashlib`) are
modelled from the spec where their behaviour matters (marked `Modelled from the
spec:`), or abstracted as function parameters (the `Codecs` record) where the
spec treats them as black boxes.
-/

namespace PayloadDumper

/-- A block extent: `start_block` and `num_blocks`, as in the manifest protobuf.
Byte range is `[start_block*block_size, (start_block+num_blocks)*block_size)`. -/
structure Extent where
  start_block : Nat
  num_blocks : Nat
deriving DecidableEq

/-- The operation types dispatched by `data_for_op` (lines 138-193).  Any value
other than the eight recognised ones is modelled by `other`. -/
inductive OpType where
  | replace
  | replaceBz
  | replaceXz
  | zstd
  | sourceCopy
  | sourceBsdiff
  | brotliBsdiff
  | zero
  | other (n : Nat)
deriving DecidableEq

/-- One manifest operation record, as consumed by `data_for_op`.  An absent
`data_sha256_hash` is the empty list (Python: empty `bytes`, which is falsy). -/
structure Operation where
  type : OpType
  data_offset : Nat
  data_length : Nat
  data_sha256_hash : List Nat
  src_extents : List Extent
  dst_extents : List Extent

/-- Failure modes of the executor.  Each constructor names the Python exception
(or `sys.exit` call) it models:
* `hashMismatch` — the `assert` at line 136 (`AssertionError`);
* `invalidPatchMagic` — `ValueError("incorrect magic bsdiff/BSDF2 header")`, line 57;
* `valueError` — `ValueError` raised by `bsdiff4.core.decode_int64` on a field
  that is not exactly 8 bytes;
* `indexError` — `IndexError` from `magic[5]`/`magic[6]`/`magic[7]` on a short
  magic, or from `op.dst_extents[0]` on an empty extent list;
* `typeError` — `TypeError` from using the `None` returned by
  `bsdf2_decompress` where bytes are required (e.g. `len(bcontrol)`);
* `patchOverrun` — "corrupt patch" failure inside the diff-patch applicator;
* `codecError` — a failure raised inside an external decompressor;
* `systemExit code` — `sys.exit(code)`. -/
inductive PErr where
  | hashMismatch
  | invalidPatchMagic
  | valueError
  | indexError
  | typeError
  | patchOverrun
  | codecError
  | systemExit (code : Int)
deriving DecidableEq

/-- The external codec collaborators used by the executor, abstracted as
functions: the spec (§1 non-goals) treats all decompressors as black-box
conforming decoders, and SHA-256 as an external hash.  A decompressor may fail
(raise); the hash function is total. -/
structure Codecs where
  lzma : List Nat → Except PErr (List Nat)
  zstd : List Nat → Except PErr (List Nat)
  bz2 : List Nat → Except PErr (List Nat)
  brotli : List Nat → Except PErr (List Nat)
  sha256 : List Nat → List Nat

/-- `b'BSDF2'` (line 26). -/
def BSDF2_MAGIC : List Nat := [66, 83, 68, 70, 50]

/-- Modelled from the spec: `bsdiff4.format.MAGIC` is external library code not
present in the repository.  The spec (§4.3, §6) calls it "the legacy 8-byte
bsdiff magic"; its canonical value is the ASCII bytes of `"BSDIFF40"`. -/
def BSDIFF40_MAGIC : List Nat := [66, 83, 68, 73, 70, 70, 52, 48]

/-- `s[pos : pos+n]`: the slice semantics of a `read(n)` call on a `BytesIO` (or
file) positioned at `pos` over contents `l` — returns at most `n` bytes,
silently short when fewer are available. -/
def readAt (l : List Nat) (pos n : Nat) : List Nat := (l.drop pos).take n

/-- Little-endian value of a byte list: `leNat [b0, b1, ...] = b0 + 256*b1 + ...`. -/
def leNat : List Nat → Nat
  | [] => 0
  | b :: bs => b + 256 * leNat bs

/-- Modelled from the spec: `bsdiff4.core.decode_int64` is external library code
not present in the repository.  Per spec §4.3 steps 2-3 it reinterprets exactly
8 bytes as a signed 64-bit little-endian (two's complement) integer; a field of
any other length is rejected with a `ValueError`. -/
def decode_int64 (b : List Nat) : Except PErr Int :=
  if b.length = 8 then
    let m := leNat b
    .ok (if m < 2 ^ 63 then (m : Int) else (m : Int) - 2 ^ 64)
  else .error .valueError

/-- The `n` low bytes of `m`, little-endian. -/
def leBytes : Nat → Nat → List Nat
  | _, 0 => []
  | m, k + 1 => m % 256 :: leBytes (m / 256) k

/-- Modelled from the spec: the inverse of `decode_int64`, as used by the
reference bsdiff producer (`bsdiff4.core.encode_int64`) — the signed 64-bit
little-endian (two's complement) encoding of `x`. -/
def encode_int64 (x : Int) : List Nat := leBytes (x % 2 ^ 64).toNat 8

/-- The codec adapter `bsdf2_decompress` (lines 36-42).  Algorithm 0 is the
identity, 1 is bzip2, 2 is Brotli.  The Python function has no `else` branch: for
any other algorithm id it falls through and returns `None` (modelled as
`.ok none`) — it does not raise. -/
def bsdf2_decompress (C : Codecs) (alg : Nat) (data : List Nat) :
    Except PErr (Option (List Nat)) :=
  if alg = 0 then .ok (some data)
  else if alg = 1 then (C.bz2 data).map some
  else if alg = 2 then (C.brotli data).map some
  else .ok none

/-- The control-stream grouping of `bsdf2_read_patch` (lines 66-69): the
decompressed control bytes are read in 24-byte groups, each group decoded as
three consecutive 8-byte slices by `decode_int64`.  A trailing group shorter
than 24 bytes hands `decode_int64` a slice shorter than 8 bytes, which raises
`ValueError`. -/
def parse_controlN : Nat → List Nat → Except PErr (List (Int × Int × Int))
  | 0, _ => .ok []
  | k + 1, bc => do
    let x ← decode_int64 (readAt bc 0 8)
    let y ← decode_int64 (readAt bc 8 8)
    let z ← decode_int64 (readAt bc 16 8)
    let ts ← parse_controlN k (bc.drop 24)
    .ok ((x, y, z) :: ts)

/-- `⌈len(bcontrol)/24⌉` groups, one per iteration of the Python comprehension's
`range(0, len(bcontrol), 24)`. -/
def parse_control (bc : List Nat) : Except PErr (List (Int × Int × Int)) :=
  parse_controlN ((bc.length + 23) / 24) bc

/-- The body of `bsdf2_read_patch` after the magic has been consumed (lines
59-74), reading from the remaining stream contents `r` (the stream is positioned
right after the 8 magic bytes, so every later read only depends on the bytes
after the magic).  Reads the three 8-byte length headers, then the control
stream (decompressed with `algc` and grouped into triplets), then the diff
stream (decompressed with `algd`), then all remaining bytes (decompressed with
`alge`).  A negative declared length makes the corresponding Python
`fi.read(length)` read to end of stream.  The diff and extra results are
`Option`s because `bsdf2_decompress` returns `None` for an unknown algorithm id
and `bsdf2_read_patch` passes such a `None` through without using it. -/
def read_patch_body (C : Codecs) (algc algd alge : Nat) (r : List Nat) :
    Except PErr (Int × List (Int × Int × Int) × Option (List Nat) × Option (List Nat)) := do
  let lcB := readAt r 0 8
  let len_control ← decode_int64 lcB
  let p1 := lcB.length
  let ldB := readAt r p1 8
  let len_diff ← decode_int64 ldB
  let p2 := p1 + ldB.length
  let lzB := readAt r p2 8
  let len_dst ← decode_int64 lzB
  let p3 := p2 + lzB.length
  let rawc := if len_control < 0 then r.drop p3 else readAt r p3 len_control.toNat
  let p4 := p3 + rawc.length
  let bcontrolO ← bsdf2_decompress C algc rawc
  match bcontrolO with
  | none => .error .typeError
  | some bcontrol => do
    let tcontrol ← parse_control bcontrol
    let rawd := if len_diff < 0 then r.drop p4 else readAt r p4 len_diff.toNat
    let p5 := p4 + rawd.length
    let bdiff ← bsdf2_decompress C algd rawd
    let bextra ← bsdf2_decompress C alge (r.drop p5)
    .ok (len_dst, tcontrol, bdiff, bextra)

/-- The embedded diff-patch reader `bsdf2_read_patch` (lines 45-74), operating
on the full patch blob.  The first 8 bytes are the magic: the legacy bsdiff
magic sets all three algorithm ids to 1 (bzip2); a `b'BSDF2'` prefix takes the
three ids from bytes 5, 6, 7 (raising `IndexError` if the blob stops inside
them); anything else raises the "incorrect magic" `ValueError`. -/
def bsdf2_read_patch (C : Codecs) (blob : List Nat) :
    Except PErr (Int × List (Int × Int × Int) × Option (List Nat) × Option (List Nat)) :=
  let magic := blob.take 8
  if magic = BSDIFF40_MAGIC then
    read_patch_body C 1 1 1 (blob.drop 8)
  else if magic.take 5 = BSDF2_MAGIC then
    match magic.get? 5, magic.get? 6, magic.get? 7 with
    | some a, some b, some c => read_patch_body C a b c (blob.drop 8)
    | _, _, _ => .error .indexError
  else .error .invalidPatchMagic

/-- Byte-wise addition modulo 256 of two equal-length byte runs — the bsdiff
"copy + add" step. -/
def addBytes (a b : List Nat) : List Nat := List.zipWith (fun x y => (x + y) % 256) a b

/-- Modelled from the spec: the loop of the diff-patch applicator
(`bsdiff4.core.patch`, external library code; spec §4.4).  Cursors `oldpos`
(may go negative via seek offsets), `diffpos`, `extrapos`; for each control
triplet `(copy_len, extra_len, seek_off)`: append `copy_len` bytes of
diff+old (byte-wise addition mod 256), then `extra_len` bytes of extra
verbatim, then advance `oldpos` by `seek_off`.  Fails ("corrupt patch" /
`PatchOverrun`) if a length is negative or a cursor would read out of bounds. -/
def applyCtl (old diff extra : List Nat) :
    List (Int × Int × Int) → Int → Nat → Nat → List Nat → Except PErr (List Nat)
  | [], _, _, _, out => .ok out
  | (cx, ex, sk) :: rest, oldpos, diffpos, extrapos, out =>
    if cx < 0 ∨ ex < 0 then .error .patchOverrun
    else
      let cn := cx.toNat
      let en := ex.toNat
      if oldpos < 0 ∨ oldpos + cx > (old.length : Int) ∨
          diffpos + cn > diff.length ∨ extrapos + en > extra.length then
        .error .patchOverrun
      else
        let seg := addBytes (readAt diff diffpos cn) (readAt old oldpos.toNat cn)
        let seg2 := readAt extra extrapos en
        applyCtl old diff extra rest (oldpos + cx + sk) (diffpos + cn) (extrapos + en)
          (out ++ seg ++ seg2)

/-- Modelled from the spec: the diff-patch applicator `bsdiff4.core.patch`
(spec §4.4), as called at line 178 with the result of `bsdf2_read_patch`.
Passing `None` for the diff or extra stream (an unknown algorithm id) fails at
argument parsing (`TypeError`); a negative expected length fails; otherwise the
control triplets are applied and the result must have exactly the expected
output length. -/
def bsdiffApply (old : List Nat) (len_dst : Int) (ctl : List (Int × Int × Int))
    (diffO extraO : Option (List Nat)) : Except PErr (List Nat) :=
  match diffO, extraO with
  | some diff, some extra =>
    if len_dst < 0 then .error .patchOverrun
    else
      match applyCtl old diff extra ctl 0 0 0 [] with
      | .error e => .error e
      | .ok out => if (out.length : Int) = len_dst then .ok out else .error .patchOverrun
  | _, _ => .error .typeError

/-- The output image: a random-access, growable, byte-addressable store
(spec §6), modelled as a total map from byte offset to byte value. -/
def OutImage := Nat → Nat

/-- `f.seek(off); f.write(data)`: bytes `[off, off + data.length)` become
`data`, every other offset is untouched. -/
def writeAt (img : OutImage) (off : Nat) (data : List Nat) : OutImage :=
  fun i => if off ≤ i ∧ i < off + data.length then data.getD (i - off) 0 else img i

/-- The concatenation of the old-image bytes of all `src_extents` in order
(the contents of `tmp_buff` after the loop at lines 171-174; also the sequence
of chunks written by the SOURCE_COPY loop at lines 161-164).  Reads past the end
of the old file are silently short, as in Python. -/
def concatSrc (oldD : List Nat) (bs : Nat) (exts : List Extent) : List Nat :=
  exts.foldl
    (fun acc ext => acc ++ readAt oldD (ext.start_block * bs) (ext.num_blocks * bs)) []

/-- The SOURCE_COPY write loop (lines 160-164): the output file is positioned at
`dst_extents[0]`'s byte offset once, then each source extent's bytes are written
sequentially — the write position simply advances, and the offsets of the
remaining destination extents are never used. -/
def copyWrites (oldD : List Nat) (bs : Nat) (exts : List Extent)
    (img : OutImage) (pos : Nat) : OutImage × Nat :=
  exts.foldl
    (fun acc ext =>
      let chunk := readAt oldD (ext.start_block * bs) (ext.num_blocks * bs)
      (writeAt acc.1 acc.2 chunk, acc.2 + chunk.length))
    (img, pos)

/-- The BSDIFF destination loop (lines 179-186): a running block counter `n`
starts at 0; for each destination extent, `ext.num_blocks * block_size` bytes
are read from the scratch buffer `tmp` at offset `n * block_size` (short if the
buffer ends first) and written at that extent's own byte offset, then `n`
advances by `ext.num_blocks`. -/
def writeDst (bs : Nat) (tmp : List Nat) (exts : List Extent) (img : OutImage) :
    OutImage :=
  (exts.foldl
    (fun acc ext =>
      let chunk := readAt tmp (acc.2 * bs) (ext.num_blocks * bs)
      (writeAt acc.1 (ext.start_block * bs) chunk, acc.2 + ext.num_blocks))
    (img, 0)).1

/-- The ZERO loop (lines 187-190): write `num_blocks * block_size` zero bytes at
each destination extent's byte offset.  (`b'\x00' * ext.num_blocks*block_size`
parses as `(b'\x00' * num_blocks) * block_size`, which is exactly
`num_blocks * block_size` zero bytes.) -/
def zeroWrites (bs : Nat) (exts : List Extent) (img : OutImage) : OutImage :=
  exts.foldl
    (fun acc ext =>
      writeAt acc (ext.start_block * bs) (List.replicate (ext.num_blocks * bs) 0))
    img

/-- Helper for the REPLACE-family branches: write the (possibly decompressed)
data at `dst_extents[0]`'s byte offset; an empty extent list raises
`IndexError`, a decompressor failure propagates first (matching the Python
statement order: decompress, then index, then seek+write). -/
def replaceWrite (res : Except PErr (List Nat)) (exts : List Extent) (bs : Nat)
    (img : OutImage) : Option PErr × OutImage :=
  match res with
  | .error e => (some e, img)
  | .ok d =>
    match exts with
    | [] => (some .indexError, img)
    | e0 :: _ => (none, writeAt img (e0.start_block * bs) d)

/-- The operation executor `data_for_op` (lines 131-195).  Returns the final
output image together with `some` error if the Python function raised (or called
`sys.exit`); the returned image reflects exactly the writes performed before the
failure.  The payload handle is modelled by the full payload byte string
(`payload_file.seek(data_offset + op.data_offset); payload_file.read(op.data_length)`
is the slice `readAt payload (data_offset + op.data_offset) op.data_length`);
the optional old image is its byte string; `old = none` models a missing
old-image handle.  (Python also returns the local `data`; no caller uses that
value, and it is not modelled.) -/
def data_for_op (C : Codecs) (op : Operation) (payload : List Nat)
    (out_img : OutImage) (old : Option (List Nat)) (data_offset block_size : Nat) :
    Option PErr × OutImage :=
  let data := readAt payload (data_offset + op.data_offset) op.data_length
  if op.data_sha256_hash ≠ [] ∧ C.sha256 data ≠ op.data_sha256_hash then
    (some .hashMismatch, out_img)
  else
    match op.type with
    | .replaceXz => replaceWrite (C.lzma data) op.dst_extents block_size out_img
    | .zstd => replaceWrite (C.zstd data) op.dst_extents block_size out_img
    | .replaceBz => replaceWrite (C.bz2 data) op.dst_extents block_size out_img
    | .replace => replaceWrite (.ok data) op.dst_extents block_size out_img
    | .sourceCopy =>
      match old with
      | none => (some (.systemExit (-2)), out_img)
      | some oldD =>
        match op.dst_extents with
        | [] => (some .indexError, out_img)
        | e0 :: _ =>
          ((copyWrites oldD block_size op.src_extents out_img
              (e0.start_block * block_size)).1 |> (none, ·))
    | .sourceBsdiff | .brotliBsdiff =>
      match old with
      | none => (some (.systemExit (-3)), out_img)
      | some oldD =>
        match op.dst_extents with
        | [] => (some .indexError, out_img)
        | _ :: _ =>
          let old_data := concatSrc oldD block_size op.src_extents
          match bsdf2_read_patch C data with
          | .error e => (some e, out_img)
          | .ok (len_dst, tctl, bdiff, bextra) =>
            match bsdiffApply old_data len_dst tctl bdiff bextra with
            | .error e => (some e, out_img)
            | .ok newD =>
              let tmp := newD ++ old_data.drop newD.length
              (none, writeDst block_size tmp op.dst_extents out_img)
    | .zero => (none, zeroWrites block_size op.dst_extents out_img)
    | .other _ => (some (.systemExit (-1)), out_img)

/-- The operation loop of `dump_part` (lines 220-224): apply the operations in
manifest order, stopping at the first failure (a raised exception or `sys.exit`
aborts the worker).  `old = none` models both a non-differential run and a
differential run whose old image file was absent (lines 207-215: the worker
logs a warning and continues with `old_file = None`). -/
def dump_part (C : Codecs) (ops : List Operation) (payload : List Nat)
    (out_img : OutImage) (old : Option (List Nat)) (data_offset block_size : Nat) :
    Option PErr × OutImage :=
  match ops with
  | [] => (none, out_img)
  | op :: rest =>
    match data_for_op C op payload out_img old data_offset block_size with
    | (some e, img) => (some e, img)
    | (none, img) => dump_part C rest payload img old data_offset block_size

/-- A concrete `Codecs` instance in which every decompressor is the identity
(always succeeding) and the hash function is constant — used to instantiate
theorems at concrete inputs. -/
def idCodecs : Codecs where
  lzma := fun d => .ok d
  zstd := fun d => .ok d
  bz2 := fun d => .ok d
  brotli := fun d => .ok d
  sha256 := fun _ => []

/-- Modelled from the spec: one control triplet as laid out by the reference
bsdiff producer — three consecutive signed 64-bit little-endian integers
(spec §4.3 step 3). -/
def encTriple (t : Int × Int × Int) : List Nat :=
  encode_int64 t.1 ++ encode_int64 t.2.1 ++ encode_int64 t.2.2

/-- Modelled from the spec: the uncompressed control stream of the reference
producer — the triplets' encodings concatenated in order. -/
def ctlBytes (ts : List (Int × Int × Int)) : List Nat :=
  ts.foldr (fun t acc => encTriple t ++ acc) []

/-- The per-stream compressor selected by an algorithm id, for a producer with
bzip2 compressor `bzC` and Brotli compressor `brC`: id 1 compresses with bzip2,
id 2 with Brotli, id 0 leaves the stream raw. -/
def compFor (bzC brC : List Nat → List Nat) (alg : Nat) : List Nat → List Nat :=
  fun d => if alg = 1 then bzC d else if alg = 2 then brC d else d

/-- Modelled from the spec: the patch container written by the reference bsdiff
producer (spec §4.3 and §6 "Embedded diff-patch container"): the magic, the
three 8-byte signed little-endian lengths (compressed-control length,
compressed-diff length, expected output length), then the three compressed
streams.  `magic` is either the legacy 8-byte magic (all streams bzip2) or
`b'BSDF2'` followed by the three algorithm-id bytes. -/
def write_patch (magic : List Nat) (compc compd compe : List Nat → List Nat)
    (len_dst : Int) (ts : List (Int × Int × Int)) (bdiff bextra : List Nat) :
    List Nat :=
  let bc := compc (ctlBytes ts)
  let bd := compd bdiff
  let be2 := compe bextra
  magic ++ (encode_int64 bc.length ++ (encode_int64 bd.length ++
    (encode_int64 len_dst ++ (bc ++ (bd ++ be2)))))

/-- The composition performed at line 178:
`bsdiff4.core.patch(old_data, *bsdf2_read_patch(io.BytesIO(data)))` — parse the
patch blob, then apply it to the concatenated old bytes. -/
def reconstruct (C : Codecs) (old blob : List Nat) : Except PErr (List Nat) :=
  match bsdf2_read_patch C blob with
  | .error e => .error e
  | .ok (len_dst, tctl, bdiff, bextra) => bsdiffApply old len_dst tctl bdiff bextra

/-- `x` fits in a signed 64-bit integer. -/
def inInt64 (x : Int) : Prop := -2 ^ 63 ≤ x ∧ x < 2 ^ 63

theorem length_encode (x : Int) : (encode_int64 x).length = 8 := rfl

theorem leNat_leBytes (k m : Nat) : leNat (leBytes m k) = m % 256 ^ k := by
  induction k generalizing m with
  | zero => simp [leBytes, leNat]; omega
  | succ k ih =>
    rw [pow_succ']
    simp only [leBytes, leNat, ih, Nat.mod_mul]

theorem decode_encode (x : Int) (hx : inInt64 x) :
    decode_int64 (encode_int64 x) = .ok x := by
  obtain ⟨hl, hu⟩ := hx
  unfold decode_int64
  rw [length_encode]
  simp only [if_true, encode_int64, leNat_leBytes]
  have h1 : (x % 2 ^ 64).toNat % 256 ^ 8 = (x % 2 ^ 64).toNat := by
    apply Nat.mod_eq_of_lt
    have : (256 : Nat) ^ 8 = 2 ^ 64 := by norm_num
    omega
  rw [h1]
  congr 1
  split <;> omega

theorem decomp_comp (C : Codecs) (bzC brC : List Nat → List Nat)
    (Hbz : ∀ x, C.bz2 (bzC x) = .ok x) (Hbr : ∀ x, C.brotli (brC x) = .ok x)
    (alg : Nat) (halg : alg ≤ 2) (x : List Nat) :
    bsdf2_decompress C alg (compFor bzC brC alg x) = .ok (some x) := by
  interval_cases alg <;> simp [bsdf2_decompress, compFor, Hbz, Hbr, Except.map]

theorem length_encTriple (t : Int × Int × Int) : (encTriple t).length = 24 := rfl

theorem ctlBytes_cons (t : Int × Int × Int) (ts : List (Int × Int × Int)) :
    ctlBytes (t :: ts) = encTriple t ++ ctlBytes ts := rfl

theorem length_ctlBytes (ts : List (Int × Int × Int)) :
    (ctlBytes ts).length = 24 * ts.length := by
  induction ts with
  | nil => rfl
  | cons t tl ih =>
    rw [ctlBytes_cons, List.length_append, length_encTriple, ih, List.length_cons]
    ring

/-- `inInt64` bounds for all three components of every triplet in the list. -/
def tripsIn64 (ts : List (Int × Int × Int)) : Prop :=
  ∀ t ∈ ts, inInt64 t.1 ∧ inInt64 t.2.1 ∧ inInt64 t.2.2

theorem parse_ctlBytes (ts : List (Int × Int × Int)) (h : tripsIn64 ts) :
    parse_control (ctlBytes ts) = .ok ts := by
  induction ts with
  | nil => rfl
  | cons t tl ih =>
    obtain ⟨h1, h21, h22⟩ := h t (List.mem_cons_self t tl)
    have htl : tripsIn64 tl := fun u hu => h u (List.mem_cons_of_mem t hu)
    have e1 := length_encode t.1
    have e2 := length_encode t.2.1
    have e3 := length_encode t.2.2
    rw [ctlBytes_cons]
    have hlen : (encTriple t ++ ctlBytes tl).length = 24 + (ctlBytes tl).length := by
      rw [List.length_append, length_encTriple]
    have hassoc : encTriple t ++ ctlBytes tl =
        encode_int64 t.1 ++ (encode_int64 t.2.1 ++ (encode_int64 t.2.2 ++ ctlBytes tl)) := by
      simp [encTriple, List.append_assoc]
    have hd8 : (encTriple t ++ ctlBytes tl).drop 8 =
        encode_int64 t.2.1 ++ (encode_int64 t.2.2 ++ ctlBytes tl) := by
      rw [hassoc]; exact List.drop_left' e1
    have hd16 : (encTriple t ++ ctlBytes tl).drop 16 =
        encode_int64 t.2.2 ++ ctlBytes tl := by
      have : (16 : Nat) = 8 + 8 := rfl
      rw [this, ← List.drop_drop, hd8]
      exact List.drop_left' e2
    have hd24 : (encTriple t ++ ctlBytes tl).drop 24 = ctlBytes tl := by
      have : (24 : Nat) = 16 + 8 := rfl
      rw [this, ← List.drop_drop, hd16]
      exact List.drop_left' e3
    have ht0 : readAt (encTriple t ++ ctlBytes tl) 0 8 = encode_int64 t.1 := by
      simp only [readAt, List.drop_zero, hassoc]
      exact List.take_left' e1
    have ht8 : readAt (encTriple t ++ ctlBytes tl) 8 8 = encode_int64 t.2.1 := by
      simp only [readAt, hd8]
      exact List.take_left' e2
    have ht16 : readAt (encTriple t ++ ctlBytes tl) 16 8 = encode_int64 t.2.2 := by
      simp only [readAt, hd16]
      exact List.take_left' e3
    have hg : ((encTriple t ++ ctlBytes tl).length + 23) / 24 =
        ((ctlBytes tl).length + 23) / 24 + 1 := by
      rw [hlen]; omega
    unfold parse_control at ih ⊢
    rw [hg]
    simp only [parse_controlN, ht0, ht8, ht16, hd24,
      decode_encode _ h1, decode_encode _ h21, decode_encode _ h22, ih htl]
    rfl

theorem read_patch_body_spec (C : Codecs) (ac ad ae : Nat) (c d e cb db eb : List Nat)
    (hc : bsdf2_decompress C ac c = .ok (some cb))
    (hd : bsdf2_decompress C ad d = .ok (some db))
    (he : bsdf2_decompress C ae e = .ok (some eb))
    (ts : List (Int × Int × Int)) (hts : parse_control cb = .ok ts)
    (lz : Int) (hlz : inInt64 lz)
    (hcl : c.length < 2 ^ 63) (hdl : d.length < 2 ^ 63) :
    read_patch_body C ac ad ae
      (encode_int64 c.length ++ (encode_int64 d.length ++ (encode_int64 lz ++
        (c ++ (d ++ e))))) =
    .ok (lz, ts, some db, some eb) := by
  set r := encode_int64 c.length ++ (encode_int64 d.length ++ (encode_int64 lz ++
    (c ++ (d ++ e)))) with hr
  have l1 := length_encode (c.length : Int)
  have l2 := length_encode (d.length : Int)
  have l3 := length_encode lz
  have hc64 : inInt64 (c.length : Int) := by constructor <;> omega
  have hd64 : inInt64 (d.length : Int) := by constructor <;> omega
  have hr0 : readAt r 0 8 = encode_int64 c.length := by
    simp only [readAt, List.drop_zero, hr]
    exact List.take_left' l1
  have hrd8 : r.drop 8 = encode_int64 d.length ++ (encode_int64 lz ++ (c ++ (d ++ e))) := by
    rw [hr]; exact List.drop_left' l1
  have hr8 : readAt r 8 8 = encode_int64 d.length := by
    simp only [readAt, hrd8]
    exact List.take_left' l2
  have hrd16 : r.drop 16 = encode_int64 lz ++ (c ++ (d ++ e)) := by
    rw [show (16 : Nat) = 8 + 8 from rfl, ← List.drop_drop, hrd8]
    exact List.drop_left' l2
  have hr16 : readAt r 16 8 = encode_int64 lz := by
    simp only [readAt, hrd16]
    exact List.take_left' l3
  have hrd24 : r.drop 24 = c ++ (d ++ e) := by
    rw [show (24 : Nat) = 16 + 8 from rfl, ← List.drop_drop, hrd16]
    exact List.drop_left' l3
  have hrc : readAt r 24 c.length = c := by
    simp only [readAt, hrd24]
    exact List.take_left c (d ++ e)
  have hrdcd : r.drop (24 + c.length) = d ++ e := by
    rw [← List.drop_drop, hrd24]
    exact List.drop_left c (d ++ e)
  have hrd : readAt r (24 + c.length) d.length = d := by
    simp only [readAt, hrdcd]
    exact List.take_left d e
  have hre : r.drop (24 + c.length + d.length) = e := by
    rw [← List.drop_drop, hrdcd]
    exact List.drop_left d e
  have hnc : ¬((c.length : Int) < 0) := by omega
  have hnd : ¬((d.length : Int) < 0) := by omega
  simp only [read_patch_body, hr0, hr8, hr16,
    decode_encode _ hc64, decode_encode _ hd64, decode_encode _ hlz, l1, l2, l3,
    bind, Except.bind, if_neg hnc, if_neg hnd, Int.toNat_natCast]
  rw [show (8 : Nat) + 8 = 16 from rfl, show (16 : Nat) + 8 = 24 from rfl]
  rw [hrc]
  rw [hc]
  simp only [bind, Except.bind]
  rw [hts]
  simp only [bind, Except.bind]
  rw [hrd, hd]
  simp only [bind, Except.bind]
  rw [hre, he]

theorem read_patch_bsdf2_form (C : Codecs) (a b c : Nat) (R : List Nat) :
    bsdf2_read_patch C ((BSDF2_MAGIC ++ [a, b, c]) ++ R) = read_patch_body C a b c R := by
  have hlen : (BSDF2_MAGIC ++ [a, b, c]).length = 8 := by simp [BSDF2_MAGIC]
  unfold bsdf2_read_patch
  rw [List.take_left' hlen, List.drop_left' hlen]
  rw [if_neg (by simp [BSDF2_MAGIC, BSDIFF40_MAGIC])]
  rw [if_pos (by simp [BSDF2_MAGIC])]
  simp [BSDF2_MAGIC, List.get?_eq_getElem?]

theorem read_patch_legacy_form (C : Codecs) (R : List Nat) :
    bsdf2_read_patch C (BSDIFF40_MAGIC ++ R) = read_patch_body C 1 1 1 R := by
  have hlen : BSDIFF40_MAGIC.length = 8 := by simp [BSDIFF40_MAGIC]
  unfold bsdf2_read_patch
  rw [List.take_left' hlen, List.drop_left' hlen, if_pos rfl]

theorem read_patch_bad_magic (C : Codecs) (blob : List Nat)
    (h1 : blob.take 8 ≠ BSDIFF40_MAGIC) (h2 : blob.take 5 ≠ BSDF2_MAGIC) :
    bsdf2_read_patch C blob = .error .invalidPatchMagic := by
  unfold bsdf2_read_patch
  rw [if_neg h1, if_neg (by rwa [List.take_take, show min 5 8 = 5 from rfl])]

theorem getD_append_left (a b : List Nat) (n d : Nat) (h : n < a.length) :
    (a ++ b).getD n d = a.getD n d := by
  unfold List.getD
  rw [List.get?_eq_getElem?, List.get?_eq_getElem?, List.getElem?_append_left h]

theorem getD_append_right (a b : List Nat) (n d : Nat) (h : a.length ≤ n) :
    (a ++ b).getD n d = b.getD (n - a.length) d := by
  unfold List.getD
  rw [List.get?_eq_getElem?, List.get?_eq_getElem?, List.getElem?_append_right h]

theorem getD_replicate_zero (n k : Nat) : (List.replicate n (0 : Nat)).getD k 0 = 0 := by
  unfold List.getD
  rcases Nat.lt_or_ge k n with h | h
  · rw [List.get?_eq_getElem?, List.getElem?_replicate]
    simp [h]
  · rw [List.get?_eq_none.2 (by simpa using h)]
    rfl

theorem writeAt_nil (img : OutImage) (pos : Nat) : writeAt img pos [] = img := by
  funext i
  simp only [writeAt, List.length_nil]
  rw [if_neg (by omega)]

theorem writeAt_append (img : OutImage) (pos : Nat) (a b : List Nat) :
    writeAt img pos (a ++ b) = writeAt (writeAt img pos a) (pos + a.length) b := by
  funext i
  simp only [writeAt, List.length_append]
  rcases Nat.lt_or_ge i (pos + a.length) with hlt | hge
  · rcases Nat.lt_or_ge i pos with hip | hip
    · rw [if_neg (by omega), if_neg (by omega), if_neg (by omega)]
    · rw [if_pos (by omega), if_neg (by omega), if_pos (by omega)]
      exact getD_append_left a b (i - pos) 0 (by omega)
  · rcases Nat.lt_or_ge i (pos + a.length + b.length) with hlt2 | hge2
    · rw [if_pos (by omega), if_pos (by omega)]
      rw [getD_append_right a b (i - pos) 0 (by omega)]
      congr 1
      omega
    · rw [if_neg (by omega), if_neg (by omega), if_neg (by omega)]

theorem foldl_append_init (f : Extent → List Nat) (exts : List Extent)
    (init : List Nat) :
    exts.foldl (fun acc ext => acc ++ f ext) init =
      init ++ exts.foldl (fun acc ext => acc ++ f ext) [] := by
  induction exts generalizing init with
  | nil => simp
  | cons e tl ih =>
    simp only [List.foldl_cons]
    rw [ih (init ++ f e), ih ([] ++ f e)]
    simp [List.append_assoc]

theorem concatSrc_cons (oldD : List Nat) (bs : Nat) (e : Extent) (tl : List Extent) :
    concatSrc oldD bs (e :: tl) =
      readAt oldD (e.start_block * bs) (e.num_blocks * bs) ++ concatSrc oldD bs tl := by
  unfold concatSrc
  simp only [List.foldl_cons, List.nil_append]
  exact foldl_append_init _ tl _

theorem copyWrites_eq (oldD : List Nat) (bs : Nat) (exts : List Extent)
    (img : OutImage) (pos : Nat) :
    copyWrites oldD bs exts img pos =
      (writeAt img pos (concatSrc oldD bs exts),
       pos + (concatSrc oldD bs exts).length) := by
  induction exts generalizing img pos with
  | nil => simp [copyWrites, concatSrc, writeAt_nil]
  | cons e tl ih =>
    have hstep : copyWrites oldD bs (e :: tl) img pos =
        copyWrites oldD bs tl
          (writeAt img pos (readAt oldD (e.start_block * bs) (e.num_blocks * bs)))
          (pos + (readAt oldD (e.start_block * bs) (e.num_blocks * bs)).length) := rfl
    rw [hstep, ih, concatSrc_cons, writeAt_append, List.length_append, Nat.add_assoc]

theorem zeroWrites_or (bs : Nat) (exts : List Extent) (img : OutImage) (i : Nat) :
    zeroWrites bs exts img i = 0 ∨ zeroWrites bs exts img i = img i := by
  induction exts generalizing img with
  | nil => right; rfl
  | cons e tl ih =>
    have hstep : zeroWrites bs (e :: tl) img =
        zeroWrites bs tl
          (writeAt img (e.start_block * bs) (List.replicate (e.num_blocks * bs) 0)) := rfl
    rw [hstep]
    rcases ih (writeAt img (e.start_block * bs) (List.replicate (e.num_blocks * bs) 0)) with
      h | h
    · left; exact h
    · rw [h]
      simp only [writeAt]
      split
      · left; exact getD_replicate_zero _ _
      · right; rfl

theorem zeroWrites_covered (bs : Nat) (exts : List Extent) (img : OutImage) (i : Nat)
    (ext : Extent) (hmem : ext ∈ exts) (hlo : ext.start_block * bs ≤ i)
    (hhi : i < ext.start_block * bs + ext.num_blocks * bs) :
    zeroWrites bs exts img i = 0 := by
  induction exts generalizing img with
  | nil => cases hmem
  | cons e tl ih =>
    have hstep : zeroWrites bs (e :: tl) img =
        zeroWrites bs tl
          (writeAt img (e.start_block * bs) (List.replicate (e.num_blocks * bs) 0)) := rfl
    rw [hstep]
    rcases List.mem_cons.1 hmem with heq | hmem'
    · subst heq
      rcases zeroWrites_or bs tl
          (writeAt img (ext.start_block * bs) (List.replicate (ext.num_blocks * bs) 0)) i with
        h | h
      · exact h
      · rw [h]
        simp only [writeAt, List.length_replicate]
        rw [if_pos (by omega)]
        exact getD_replicate_zero _ _
    · exact ih _ hmem'

theorem zeroWrites_untouched (bs : Nat) (exts : List Extent) (img : OutImage) (i : Nat)
    (h : ∀ ext ∈ exts,
      ¬(ext.start_block * bs ≤ i ∧ i < ext.start_block * bs + ext.num_blocks * bs)) :
    zeroWrites bs exts img i = img i := by
  induction exts generalizing img with
  | nil => rfl
  | cons e tl ih =>
    have hstep : zeroWrites bs (e :: tl) img =
        zeroWrites bs tl
          (writeAt img (e.start_block * bs) (List.replicate (e.num_blocks * bs) 0)) := rfl
    rw [hstep, ih _ (fun ext hext => h ext (List.mem_cons_of_mem e hext))]
    simp only [writeAt, List.length_replicate]
    rw [if_neg (h e (List.mem_cons_self e tl))]

theorem dump_part_append (C : Codecs) (l1 l2 : List Operation) (payload : List Nat)
    (img : OutImage) (old : Option (List Nat)) (off bs : Nat)
    (h : (dump_part C l1 payload img old off bs).1 = none) :
    dump_part C (l1 ++ l2) payload img old off bs =
      dump_part C l2 payload (dump_part C l1 payload img old off bs).2 old off bs := by
  induction l1 generalizing img with
  | nil => rfl
  | cons op tl ih =>
    simp only [List.cons_append, dump_part] at h ⊢
    rcases hop : data_for_op C op payload img old off bs with ⟨oe, im⟩
    rw [hop] at h
    cases oe with
    | some e => exact Option.noConfusion h
    | none => exact ih im h

theorem gate_passes (C : Codecs) (op : Operation) (data : List Nat)
    (hok : op.data_sha256_hash ≠ [] → C.sha256 data = op.data_sha256_hash) :
    ¬(op.data_sha256_hash ≠ [] ∧ C.sha256 data ≠ op.data_sha256_hash) :=
  fun ⟨h1, h2⟩ => h2 (hok h1)

/-- Claim C6: for every operation carrying a declared (non-empty) SHA-256 hash,
the executor reads exactly `data_length` bytes at `base_offset + data_offset`,
and whenever the digest of those bytes differs from the declared hash it fails
with `HashMismatch` (`AssertionError`, line 136) with the output image untouched
— the gate precedes every write, so in particular any single-byte mutation of
the raw payload that changes its digest causes this failure.  The hash function
itself is the external `hashlib.sha256`, modelled as the black-box parameter
`C.sha256`. -/
theorem hash_gate_blocks_writes (C : Codecs) (op : Operation) (payload : List Nat)
    (out_img : OutImage) (old : Option (List Nat)) (off bs : Nat)
    (hx : op.data_sha256_hash ≠ [])
    (hne : C.sha256 (readAt payload (off + op.data_offset) op.data_length) ≠
      op.data_sha256_hash) :
    data_for_op C op payload out_img old off bs = (some .hashMismatch, out_img) := by
  unfold data_for_op
  rw [if_pos ⟨hx, hne⟩]

theorem hash_gate_blocks_writes_witness :
    data_for_op idCodecs ⟨.zero, 0, 3, [1], [], [⟨0, 1⟩]⟩ [5, 5, 5] (fun _ => 0) none 0 4
      = (some .hashMismatch, fun _ => 0) :=
  hash_gate_blocks_writes idCodecs ⟨.zero, 0, 3, [1], [], [⟨0, 1⟩]⟩ [5, 5, 5]
    (fun _ => 0) none 0 4 (by decide) (by decide)

/-- Claim C4 counterexample: for the out-of-range algorithm id 3 the adapter
does not fail — it returns the Python value `None` (the function body has no
`else` branch, lines 36-42), i.e. the call evaluates to `.ok none`, a normal
return, not an error. -/
theorem bsdf2_decompress_unknown_id_returns_none :
    bsdf2_decompress idCodecs 3 [1, 2, 3] = .ok none := by rfl

/-- Claim C4 (amended): `bsdf2_decompress` returns its input unchanged for
algorithm id 0, the bzip2 decompression for id 1, the Brotli decompression for
id 2, and for every other algorithm id it returns the Python value `None`
(falling off the end of the function) instead of raising an `UnsupportedCodec`
error; the failure surfaces only later, when a caller uses the `None`. -/
theorem bsdf2_decompress_spec (C : Codecs) (data : List Nat) :
    bsdf2_decompress C 0 data = .ok (some data) ∧
    bsdf2_decompress C 1 data = (C.bz2 data).map some ∧
    bsdf2_decompress C 2 data = (C.brotli data).map some ∧
    ∀ alg : Nat, alg ≠ 0 → alg ≠ 1 → alg ≠ 2 →
      bsdf2_decompress C alg data = .ok none := by
  refine ⟨rfl, rfl, rfl, fun alg h0 h1 h2 => ?_⟩
  unfold bsdf2_decompress
  rw [if_neg h0, if_neg h1, if_neg h2]

theorem bsdf2_decompress_spec_witness :
    bsdf2_decompress idCodecs 7 [4] = .ok none :=
  (bsdf2_decompress_spec idCodecs [4]).2.2.2 7 (by decide) (by decide) (by decide)

/-- Claim C1 counterexample: `block_size = 1`, old image `[10, 20]`, one source
extent `(0, 2)`, destination extents `[(0, 1), (5, 1)]`.  The claim says the
second destination extent receives the second byte of the concatenation (the
value 20) at its own byte offset 5; the code instead writes it at offset 1
(contiguously after the first extent) and leaves offset 5 untouched (value 99 of
the pre-existing image, not 20). -/
theorem source_copy_counterexample :
    (data_for_op idCodecs ⟨.sourceCopy, 0, 0, [], [⟨0, 2⟩], [⟨0, 1⟩, ⟨5, 1⟩]⟩
      [] (fun _ => 99) (some [10, 20]) 0 1).1 = none ∧
    (data_for_op idCodecs ⟨.sourceCopy, 0, 0, [], [⟨0, 2⟩], [⟨0, 1⟩, ⟨5, 1⟩]⟩
      [] (fun _ => 99) (some [10, 20]) 0 1).2 1 = 20 ∧
    (data_for_op idCodecs ⟨.sourceCopy, 0, 0, [], [⟨0, 2⟩], [⟨0, 1⟩, ⟨5, 1⟩]⟩
      [] (fun _ => 99) (some [10, 20]) 0 1).2 5 = 99 ∧
    (99 : Nat) ≠ 20 :=
  ⟨rfl, rfl, rfl, by decide⟩

/-- Claim C1 (amended): for every SOURCE_COPY operation executed with an
old-image handle, the bytes read from the old image at each src_extent (in
order) are concatenated and the whole concatenation is written contiguously
starting at `dst_extents[0]`'s byte offset; the byte offsets of the remaining
destination extents are ignored (the loop at lines 160-164 never seeks the
output file again), so each destination extent receives its slice of the
concatenation at its own offset only when the destination extents happen to be
contiguous. -/
theorem source_copy_contiguous (C : Codecs) (op : Operation) (payload : List Nat)
    (out_img : OutImage) (oldD : List Nat) (off bs : Nat) (e0 : Extent)
    (rest : List Extent)
    (htype : op.type = .sourceCopy)
    (hdst : op.dst_extents = e0 :: rest)
    (hok : op.data_sha256_hash ≠ [] →
      C.sha256 (readAt payload (off + op.data_offset) op.data_length) =
        op.data_sha256_hash) :
    data_for_op C op payload out_img (some oldD) off bs =
      (none, writeAt out_img (e0.start_block * bs) (concatSrc oldD bs op.src_extents)) := by
  unfold data_for_op
  rw [if_neg (gate_passes C op _ hok), htype, hdst]
  simp only [copyWrites_eq]

theorem source_copy_contiguous_witness :
    data_for_op idCodecs ⟨.sourceCopy, 0, 0, [], [⟨0, 2⟩], [⟨1, 1⟩, ⟨9, 1⟩]⟩ []
      (fun _ => 0) (some [10, 20]) 0 1 =
      (none, writeAt (fun _ => 0) (1 * 1) (concatSrc [10, 20] 1 [⟨0, 2⟩])) :=
  source_copy_contiguous idCodecs ⟨.sourceCopy, 0, 0, [], [⟨0, 2⟩], [⟨1, 1⟩, ⟨9, 1⟩]⟩
    [] (fun _ => 0) [10, 20] 0 1 ⟨1, 1⟩ [⟨9, 1⟩] rfl rfl (by intro h; cases h rfl)

theorem data_for_op_zero (C : Codecs) (op : Operation) (payload : List Nat)
    (out_img : OutImage) (old : Option (List Nat)) (off bs : Nat)
    (htype : op.type = .zero)
    (hok : op.data_sha256_hash ≠ [] →
      C.sha256 (readAt payload (off + op.data_offset) op.data_length) =
        op.data_sha256_hash) :
    data_for_op C op payload out_img old off bs =
      (none, zeroWrites bs op.dst_extents out_img) := by
  unfold data_for_op
  rw [if_neg (gate_passes C op _ hok), htype]

/-- Claim C9: for every ZERO operation (whose hash gate, if any, passes), the
executor succeeds and writes exactly `num_blocks * block_size` zero bytes at
byte offset `start_block * block_size` for every destination extent, touches no
byte outside those ranges, and ignores the raw payload bytes: the branch at
lines 187-190 never uses `data`, so the result does not depend on the payload
contents (beyond the universal hash gate). -/
theorem zero_op_spec (C : Codecs) (op : Operation) (payload : List Nat)
    (out_img : OutImage) (old : Option (List Nat)) (off bs : Nat)
    (htype : op.type = .zero)
    (hok : op.data_sha256_hash ≠ [] →
      C.sha256 (readAt payload (off + op.data_offset) op.data_length) =
        op.data_sha256_hash) :
    (data_for_op C op payload out_img old off bs).1 = none ∧
    (∀ ext ∈ op.dst_extents, ∀ i, ext.start_block * bs ≤ i →
      i < ext.start_block * bs + ext.num_blocks * bs →
      (data_for_op C op payload out_img old off bs).2 i = 0) ∧
    (∀ i, (∀ ext ∈ op.dst_extents,
        ¬(ext.start_block * bs ≤ i ∧ i < ext.start_block * bs + ext.num_blocks * bs)) →
      (data_for_op C op payload out_img old off bs).2 i = out_img i) ∧
    (∀ payload' : List Nat,
      (op.data_sha256_hash ≠ [] →
        C.sha256 (readAt payload' (off + op.data_offset) op.data_length) =
          op.data_sha256_hash) →
      data_for_op C op payload' out_img old off bs =
        data_for_op C op payload out_img old off bs) := by
  rw [data_for_op_zero C op payload out_img old off bs htype hok]
  refine ⟨rfl, ?_, ?_, ?_⟩
  · intro ext hmem i hlo hhi
    exact zeroWrites_covered bs op.dst_extents out_img i ext hmem hlo hhi
  · intro i hout
    exact zeroWrites_untouched bs op.dst_extents out_img i hout
  · intro payload' hok'
    rw [data_for_op_zero C op payload' out_img old off bs htype hok']

theorem zero_op_spec_witness :
    (data_for_op idCodecs ⟨.zero, 0, 0, [], [], [⟨0, 2⟩, ⟨5, 1⟩]⟩ [] (fun _ => 7)
      none 0 512).1 = none ∧
    (data_for_op idCodecs ⟨.zero, 0, 0, [], [], [⟨0, 2⟩, ⟨5, 1⟩]⟩ [] (fun _ => 7)
      none 0 512).2 1023 = 0 ∧
    (data_for_op idCodecs ⟨.zero, 0, 0, [], [], [⟨0, 2⟩, ⟨5, 1⟩]⟩ [] (fun _ => 7)
      none 0 512).2 2560 = 0 ∧
    (data_for_op idCodecs ⟨.zero, 0, 0, [], [], [⟨0, 2⟩, ⟨5, 1⟩]⟩ [] (fun _ => 7)
      none 0 512).2 1024 = 7 := by
  obtain ⟨h1, h2, h3, _⟩ := zero_op_spec idCodecs ⟨.zero, 0, 0, [], [], [⟨0, 2⟩, ⟨5, 1⟩]⟩
    [] (fun _ => 7) none 0 512 rfl (by intro h; cases h rfl)
  refine ⟨h1, ?_, ?_, ?_⟩
  · exact h2 (⟨0, 2⟩ : Extent) (by decide) 1023 (by decide) (by decide)
  · exact h2 (⟨5, 1⟩ : Extent) (by decide) 2560 (by decide) (by decide)
  · refine (zero_op_spec idCodecs ⟨.zero, 0, 0, [], [], [⟨0, 2⟩, ⟨5, 1⟩]⟩
      [] (fun _ => 7) none 0 512 rfl (by intro h; cases h rfl)).2.2.1 1024 ?_
    intro ext hmem
    fin_cases hmem <;> simp

theorem sourceCopy_no_old (C : Codecs) (op : Operation) (payload : List Nat)
    (out_img : OutImage) (off bs : Nat)
    (htype : op.type = .sourceCopy)
    (hok : op.data_sha256_hash ≠ [] →
      C.sha256 (readAt payload (off + op.data_offset) op.data_length) =
        op.data_sha256_hash) :
    data_for_op C op payload out_img none off bs =
      (some (.systemExit (-2)), out_img) := by
  unfold data_for_op
  rw [if_neg (gate_passes C op _ hok), htype]

theorem bsdiff_no_old (C : Codecs) (op : Operation) (payload : List Nat)
    (out_img : OutImage) (off bs : Nat)
    (htype : op.type = .sourceBsdiff ∨ op.type = .brotliBsdiff)
    (hok : op.data_sha256_hash ≠ [] →
      C.sha256 (readAt payload (off + op.data_offset) op.data_length) =
        op.data_sha256_hash) :
    data_for_op C op payload out_img none off bs =
      (some (.systemExit (-3)), out_img) := by
  unfold data_for_op
  rcases htype with h | h <;> rw [if_neg (gate_passes C op _ hok), h]

/-- Claim C7: a SOURCE_COPY operation executed with no old-image handle fails
deterministically with `sys.exit(-2)` (line 159), a SOURCE_BSDIFF or
BROTLI_BSDIFF operation with `sys.exit(-3)` (line 168) — never a silent no-op,
and with the output image untouched; and the partition worker, which on a
missing old image logs and continues with `old_file = None` (lines 207-215),
still starts, applies all earlier operations, and fails exactly when the first
such differential operation is attempted, leaving the image as the earlier
operations produced it. -/
theorem missing_old_image_fails (C : Codecs) (op : Operation) (payload : List Nat)
    (out_img : OutImage) (off bs : Nat)
    (hok : op.data_sha256_hash ≠ [] →
      C.sha256 (readAt payload (off + op.data_offset) op.data_length) =
        op.data_sha256_hash) :
    (op.type = .sourceCopy →
      data_for_op C op payload out_img none off bs =
        (some (.systemExit (-2)), out_img)) ∧
    (op.type = .sourceBsdiff ∨ op.type = .brotliBsdiff →
      data_for_op C op payload out_img none off bs =
        (some (.systemExit (-3)), out_img)) ∧
    (∀ ops1 ops2 : List Operation,
      (dump_part C ops1 payload out_img none off bs).1 = none →
      (op.type = .sourceCopy ∨ op.type = .sourceBsdiff ∨ op.type = .brotliBsdiff) →
      dump_part C (ops1 ++ op :: ops2) payload out_img none off bs =
        (some (.systemExit (if op.type = .sourceCopy then -2 else -3)),
         (dump_part C ops1 payload out_img none off bs).2)) := by
  refine ⟨fun h => sourceCopy_no_old C op payload out_img off bs h hok,
    fun h => bsdiff_no_old C op payload out_img off bs h hok, ?_⟩
  intro ops1 ops2 h1 htype
  rw [dump_part_append C ops1 (op :: ops2) payload out_img none off bs h1]
  show (match data_for_op C op payload _ none off bs with
    | (some e, img) => (some e, img)
    | (none, img) => dump_part C ops2 payload img none off bs) = _
  rcases htype with h | h
  · rw [sourceCopy_no_old C op payload _ off bs h hok, h]
    simp
  · rw [bsdiff_no_old C op payload _ off bs h hok]
    rcases h with h | h <;> rw [h] <;> simp

theorem missing_old_image_fails_witness :
    dump_part idCodecs
      [⟨.zero, 0, 0, [], [], [⟨0, 1⟩]⟩, ⟨.sourceCopy, 0, 0, [], [⟨0, 1⟩], [⟨0, 1⟩]⟩]
      [] (fun _ => 0) none 0 4 =
      (some (.systemExit (-2)),
       (dump_part idCodecs [⟨.zero, 0, 0, [], [], [⟨0, 1⟩]⟩] [] (fun _ => 0)
         none 0 4).2) :=
  (missing_old_image_fails idCodecs ⟨.sourceCopy, 0, 0, [], [⟨0, 1⟩], [⟨0, 1⟩]⟩
      [] (fun _ => 0) 0 4 (by intro h; cases h rfl)).2.2
    [⟨.zero, 0, 0, [], [], [⟨0, 1⟩]⟩] [] rfl (Or.inl rfl)

theorem data_for_op_bsdiff (C : Codecs) (op : Operation) (payload : List Nat)
    (out_img : OutImage) (oldD : List Nat) (off bs : Nat)
    (htype : op.type = .sourceBsdiff ∨ op.type = .brotliBsdiff)
    (hdst : op.dst_extents ≠ [])
    (hok : op.data_sha256_hash ≠ [] →
      C.sha256 (readAt payload (off + op.data_offset) op.data_length) =
        op.data_sha256_hash) :
    data_for_op C op payload out_img (some oldD) off bs =
      match bsdf2_read_patch C (readAt payload (off + op.data_offset) op.data_length) with
      | .error e => (some e, out_img)
      | .ok (len_dst, tctl, bdiff, bextra) =>
        match bsdiffApply (concatSrc oldD bs op.src_extents) len_dst tctl bdiff bextra with
        | .error e => (some e, out_img)
        | .ok newD =>
          (none, writeDst bs
            (newD ++ (concatSrc oldD bs op.src_extents).drop newD.length)
            op.dst_extents out_img) := by
  obtain ⟨d0, rest, hd⟩ := List.exists_cons_of_ne_nil hdst
  unfold data_for_op
  rcases htype with h | h <;>
    rw [if_neg (gate_passes C op _ hok), h, hd]

/-- Claim C8: the embedded diff-patch reader accepts exactly two magic forms —
the legacy 8-byte bsdiff magic, which behaves identically to a BSDF2 header
with all three algorithm ids set to 1 (bzip2), and the 5-byte `b'BSDF2'`
sentinel followed by three single-byte algorithm ids — and for any other 8-byte
magic it fails with the "incorrect magic" `ValueError` (`InvalidPatchMagic`);
when such a patch is executed, the error propagates out of `data_for_op` before
any byte is written to the output image. -/
theorem patch_magic_spec (C : Codecs) :
    (∀ R : List Nat, bsdf2_read_patch C (BSDIFF40_MAGIC ++ R) =
      bsdf2_read_patch C ((BSDF2_MAGIC ++ [1, 1, 1]) ++ R)) ∧
    (∀ (a b c : Nat) (R : List Nat),
      bsdf2_read_patch C ((BSDF2_MAGIC ++ [a, b, c]) ++ R) =
        read_patch_body C a b c R) ∧
    (∀ blob : List Nat, 8 ≤ blob.length → blob.take 8 ≠ BSDIFF40_MAGIC →
      blob.take 5 ≠ BSDF2_MAGIC →
      bsdf2_read_patch C blob = .error .invalidPatchMagic) ∧
    (∀ (op : Operation) (payload : List Nat) (out_img : OutImage) (oldD : List Nat)
      (off bs : Nat),
      (op.type = .sourceBsdiff ∨ op.type = .brotliBsdiff) →
      op.dst_extents ≠ [] →
      (op.data_sha256_hash ≠ [] →
        C.sha256 (readAt payload (off + op.data_offset) op.data_length) =
          op.data_sha256_hash) →
      (readAt payload (off + op.data_offset) op.data_length).take 8 ≠ BSDIFF40_MAGIC →
      (readAt payload (off + op.data_offset) op.data_length).take 5 ≠ BSDF2_MAGIC →
      data_for_op C op payload out_img (some oldD) off bs =
        (some .invalidPatchMagic, out_img)) := by
  refine ⟨?_, read_patch_bsdf2_form C, fun blob _ => read_patch_bad_magic C blob, ?_⟩
  · intro R
    rw [read_patch_legacy_form, read_patch_bsdf2_form]
  · intro op payload out_img oldD off bs htype hdst hok hm1 hm2
    rw [data_for_op_bsdiff C op payload out_img oldD off bs htype hdst hok,
      read_patch_bad_magic C _ hm1 hm2]

theorem patch_magic_spec_witness :
    bsdf2_read_patch idCodecs [88, 88, 88, 88, 88, 88, 88, 88] =
      .error .invalidPatchMagic ∧
    data_for_op idCodecs ⟨.sourceBsdiff, 0, 8, [], [], [⟨0, 1⟩]⟩
      [88, 88, 88, 88, 88, 88, 88, 88] (fun _ => 7) (some []) 0 4096 =
      (some .invalidPatchMagic, fun _ => 7) :=
  ⟨(patch_magic_spec idCodecs).2.2.1 [88, 88, 88, 88, 88, 88, 88, 88]
      (by decide) (by decide) (by decide),
   (patch_magic_spec idCodecs).2.2.2 ⟨.sourceBsdiff, 0, 8, [], [], [⟨0, 1⟩]⟩
      [88, 88, 88, 88, 88, 88, 88, 88] (fun _ => 7) [] 0 4096
      (Or.inl rfl) (by decide) (by intro h; cases h rfl) (by decide) (by decide)⟩

theorem decode_short (b : List Nat) (h : b.length ≠ 8) :
    decode_int64 b = .error .valueError := by
  unfold decode_int64
  rw [if_neg h]

theorem decode_ok8 (b : List Nat) (h : b.length = 8) :
    ∃ v, decode_int64 b = .ok v :=
  ⟨_, by unfold decode_int64; rw [if_pos h]⟩

/-- Claim C5 counterexample: a BSDF2-magic blob with identity codecs whose
header declares a 24-byte control stream while zero bytes remain after the
headers (the whole blob is 32 bytes: 8 magic + 24 header).  The claim says the
reader must fail with `TruncatedPatch`; instead `fi.read(24)` silently returns
0 bytes, the empty control stream parses as zero triplets, and the reader
returns successfully. -/
theorem truncated_patch_counterexample :
    ((BSDF2_MAGIC ++ [0, 0, 0]) ++
      (encode_int64 24 ++ (encode_int64 0 ++ encode_int64 0))).length = 32 ∧
    bsdf2_read_patch idCodecs ((BSDF2_MAGIC ++ [0, 0, 0]) ++
      (encode_int64 24 ++ (encode_int64 0 ++ encode_int64 0))) =
      .ok (0, [], some [], some []) :=
  ⟨by rfl, by rfl⟩

/-- Claim C5 (amended): the reader never checks a declared length against the
bytes actually available — every read is silently short.  A blob truncated
inside the three 8-byte length headers fails with the `ValueError` raised by
`decode_int64` on a short field (not a dedicated `TruncatedPatch` error), while
a blob truncated inside the declared streams hands the short data to the
decompressor: with the identity codec, a control stream truncated at a 24-byte
boundary is accepted without any error (see the counterexample). -/
theorem truncated_headers_error (C : Codecs) (a b c : Nat) (R : List Nat)
    (h : R.length < 24) :
    bsdf2_read_patch C ((BSDF2_MAGIC ++ [a, b, c]) ++ R) = .error .valueError := by
  rw [read_patch_bsdf2_form]
  simp only [read_patch_body]
  rcases Nat.lt_or_ge R.length 8 with h8 | h8
  · rw [decode_short (readAt R 0 8) (by simp [readAt]; omega)]
    rfl
  · have hl0 : (readAt R 0 8).length = 8 := by simp [readAt]; omega
    obtain ⟨v0, hv0⟩ := decode_ok8 _ hl0
    rw [hv0, hl0]
    rcases Nat.lt_or_ge R.length 16 with h16 | h16
    · rw [decode_short (readAt R 8 8) (by simp [readAt]; omega)]
      rfl
    · have hl8 : (readAt R 8 8).length = 8 := by simp [readAt]; omega
      obtain ⟨v8, hv8⟩ := decode_ok8 _ hl8
      rw [hv8, hl8]
      rw [decode_short (readAt R (8 + 8) 8) (by simp [readAt]; omega)]
      rfl

theorem truncated_headers_error_witness :
    bsdf2_read_patch idCodecs ((BSDF2_MAGIC ++ [0, 0, 0]) ++ [1, 2, 3]) =
      .error .valueError :=
  truncated_headers_error idCodecs 0 0 0 [1, 2, 3] (by decide)

/-- Claim C3: the reader decodes the three 8-byte length headers and every
8-byte integer of the decompressed control stream as signed 64-bit
little-endian (two's complement) integers, grouping the control integers in
threes into (copy-length, extra-length, seek-offset) triplets; in particular a
negative expected-output length or seek-offset round-trips through its
little-endian two's complement encoding.  (`bsdiff4.core.decode_int64` is
external library code modelled from the spec; `encode_int64` is its spec-
modelled inverse, so e.g. `encode_int64 (-1) = [255, ..., 255]`.) -/
theorem control_stream_decoding (C : Codecs) (lz : Int) (hlz : inInt64 lz)
    (ts : List (Int × Int × Int)) (hts : tripsIn64 ts)
    (hcl : (ctlBytes ts).length < 2 ^ 63)
    (db eb : List Nat) (hdb : db.length < 2 ^ 63) :
    bsdf2_read_patch C ((BSDF2_MAGIC ++ [0, 0, 0]) ++
      (encode_int64 (ctlBytes ts).length ++ (encode_int64 db.length ++
        (encode_int64 lz ++ (ctlBytes ts ++ (db ++ eb)))))) =
      .ok (lz, ts, some db, some eb) := by
  rw [read_patch_bsdf2_form]
  exact read_patch_body_spec C 0 0 0 (ctlBytes ts) db eb (ctlBytes ts) db eb
    rfl rfl rfl ts (parse_ctlBytes ts hts) lz hlz hcl hdb

theorem control_stream_decoding_witness :
    bsdf2_read_patch idCodecs ((BSDF2_MAGIC ++ [0, 0, 0]) ++
      (encode_int64 24 ++ (encode_int64 1 ++ (encode_int64 (-2) ++
        (ctlBytes [(3, 0, -1)] ++ ([9] ++ [])))))) =
      .ok (-2, [(3, 0, -1)], some [9], some []) :=
  control_stream_decoding idCodecs (-2) (by constructor <;> decide)
    [(3, 0, -1)] (by intro t ht; simp at ht; rw [ht]; refine ⟨⟨?_, ?_⟩, ⟨?_, ?_⟩, ?_, ?_⟩ <;> decide)
    (by decide) [9] [] (by decide)

/-- Claim C10: in the SOURCE_BSDIFF/BROTLI_BSDIFF branch the scratch buffer
that receives the patch result is the same `tmp_buff` previously filled with
the concatenated old-image bytes, overwritten from offset 0 (lines 170-178), so
its contents are `newD ++ old_data.drop newD.length`; the destination loop then
reads its chunks from this buffer without any length check, so a chunk whose
scratch range starts at or past the reconstructed length is read from the
leftover old-image bytes at the same scratch offsets, and no failure is
raised. -/
theorem bsdiff_scratch_reuse (C : Codecs) (op : Operation) (payload : List Nat)
    (out_img : OutImage) (oldD : List Nat) (off bs : Nat)
    (htype : op.type = .sourceBsdiff ∨ op.type = .brotliBsdiff)
    (hdst : op.dst_extents ≠ [])
    (hok : op.data_sha256_hash ≠ [] →
      C.sha256 (readAt payload (off + op.data_offset) op.data_length) =
        op.data_sha256_hash)
    (lz : Int) (ts : List (Int × Int × Int)) (bd be2 : Option (List Nat))
    (newD : List Nat)
    (hread : bsdf2_read_patch C (readAt payload (off + op.data_offset) op.data_length) =
      .ok (lz, ts, bd, be2))
    (happly : bsdiffApply (concatSrc oldD bs op.src_extents) lz ts bd be2 = .ok newD) :
    data_for_op C op payload out_img (some oldD) off bs =
      (none, writeDst bs
        (newD ++ (concatSrc oldD bs op.src_extents).drop newD.length)
        op.dst_extents out_img) ∧
    (∀ m k : Nat, newD.length ≤ m →
      readAt (newD ++ (concatSrc oldD bs op.src_extents).drop newD.length) m k =
        readAt (concatSrc oldD bs op.src_extents) m k) := by
  constructor
  · rw [data_for_op_bsdiff C op payload out_img oldD off bs htype hdst hok, hread]
    simp only [happly]
  · intro m k hm
    unfold readAt
    have hdrop : (newD ++ (concatSrc oldD bs op.src_extents).drop newD.length).drop m =
        (concatSrc oldD bs op.src_extents).drop m := by
      rw [show m = newD.length + (m - newD.length) by omega, List.drop_append,
        List.drop_drop]
    rw [hdrop]

theorem bsdiff_scratch_reuse_witness :
    data_for_op idCodecs ⟨.sourceBsdiff, 0, 57, [], [⟨0, 1⟩], [⟨0, 1⟩]⟩
      (write_patch (BSDF2_MAGIC ++ [0, 0, 0]) id id id 1 [(0, 1, 0)] [] [9])
      (fun _ => 0) (some [5, 6]) 0 2 =
      (none, writeDst 2 ([9] ++ ([5, 6] : List Nat).drop 1) [⟨0, 1⟩] (fun _ => 0)) ∧
    readAt ([9] ++ ([5, 6] : List Nat).drop 1) 1 1 = readAt [5, 6] 1 1 := by
  have h := bsdiff_scratch_reuse idCodecs ⟨.sourceBsdiff, 0, 57, [], [⟨0, 1⟩], [⟨0, 1⟩]⟩
    (write_patch (BSDF2_MAGIC ++ [0, 0, 0]) id id id 1 [(0, 1, 0)] [] [9])
    (fun _ => 0) [5, 6] 0 2 (Or.inl rfl) (by decide) (by intro hx; cases hx rfl)
    1 [(0, 1, 0)] (some []) (some [9]) [9] (by rfl) (by rfl)
  exact ⟨h.1, h.2 1 1 (by decide)⟩

/-- Claim C2: for every patch a reference bsdiff producer can emit — any
control-triplet list, diff stream and extra stream whose application to the old
buffer succeeds and yields the new buffer — serialising it (spec-modelled
`write_patch`) and running it back through `bsdf2_read_patch` +
`bsdiff4.core.patch` (the composition `reconstruct` of line 178) reproduces the
new buffer byte for byte, both in the BSDF2-magic form for every combination of
per-stream algorithm ids in {0, 1, 2} and in the legacy-magic form (all streams
bzip2); and a SOURCE_BSDIFF / BROTLI_BSDIFF operation whose src_extents
concatenate to the old buffer and whose single destination extent has exactly
the new buffer's byte length writes exactly the new buffer at that extent's
offset.  The external compressors are abstract: `bzC`/`brC` are the producer's
bzip2/Brotli compressors and the corresponding decompressors of `C` invert
them. -/
theorem bsdiff_roundtrip (C : Codecs) (bzC brC : List Nat → List Nat)
    (Hbz : ∀ x, C.bz2 (bzC x) = .ok x) (Hbr : ∀ x, C.brotli (brC x) = .ok x)
    (old new : List Nat) (len_dst : Int) (ts : List (Int × Int × Int))
    (bdiff bextra : List Nat)
    (happly : bsdiffApply old len_dst ts (some bdiff) (some bextra) = .ok new)
    (hts : tripsIn64 ts) (hlz : inInt64 len_dst)
    (ac ad ae : Nat) (hac : ac ≤ 2) (had : ad ≤ 2) (hae : ae ≤ 2)
    (hc1 : (compFor bzC brC ac (ctlBytes ts)).length < 2 ^ 63)
    (hd1 : (compFor bzC brC ad bdiff).length < 2 ^ 63)
    (hc2 : (bzC (ctlBytes ts)).length < 2 ^ 63)
    (hd2 : (bzC bdiff).length < 2 ^ 63) :
    reconstruct C old (write_patch (BSDF2_MAGIC ++ [ac, ad, ae])
        (compFor bzC brC ac) (compFor bzC brC ad) (compFor bzC brC ae)
        len_dst ts bdiff bextra) = .ok new ∧
    reconstruct C old (write_patch BSDIFF40_MAGIC bzC bzC bzC
        len_dst ts bdiff bextra) = .ok new ∧
    (∀ (op : Operation) (payload : List Nat) (out_img : OutImage) (oldD : List Nat)
        (off bs : Nat) (d0 : Extent),
      (op.type = .sourceBsdiff ∨ op.type = .brotliBsdiff) →
      op.dst_extents = [d0] →
      concatSrc oldD bs op.src_extents = old →
      readAt payload (off + op.data_offset) op.data_length =
        write_patch (BSDF2_MAGIC ++ [ac, ad, ae])
          (compFor bzC brC ac) (compFor bzC brC ad) (compFor bzC brC ae)
          len_dst ts bdiff bextra →
      d0.num_blocks * bs = new.length →
      (op.data_sha256_hash ≠ [] →
        C.sha256 (readAt payload (off + op.data_offset) op.data_length) =
          op.data_sha256_hash) →
      data_for_op C op payload out_img (some oldD) off bs =
        (none, writeAt out_img (d0.start_block * bs) new)) := by
  have hparse := parse_ctlBytes ts hts
  have h1 : bsdf2_read_patch C (write_patch (BSDF2_MAGIC ++ [ac, ad, ae])
      (compFor bzC brC ac) (compFor bzC brC ad) (compFor bzC brC ae)
      len_dst ts bdiff bextra) = .ok (len_dst, ts, some bdiff, some bextra) := by
    simp only [write_patch]
    rw [read_patch_bsdf2_form]
    exact read_patch_body_spec C ac ad ae _ _ _ (ctlBytes ts) bdiff bextra
      (decomp_comp C bzC brC Hbz Hbr ac hac _)
      (decomp_comp C bzC brC Hbz Hbr ad had _)
      (decomp_comp C bzC brC Hbz Hbr ae hae _)
      ts hparse len_dst hlz hc1 hd1
  have h2 : bsdf2_read_patch C (write_patch BSDIFF40_MAGIC bzC bzC bzC
      len_dst ts bdiff bextra) = .ok (len_dst, ts, some bdiff, some bextra) := by
    simp only [write_patch]
    rw [read_patch_legacy_form]
    exact read_patch_body_spec C 1 1 1 _ _ _ (ctlBytes ts) bdiff bextra
      (decomp_comp C bzC brC Hbz Hbr 1 (by omega) _)
      (decomp_comp C bzC brC Hbz Hbr 1 (by omega) _)
      (decomp_comp C bzC brC Hbz Hbr 1 (by omega) _)
      ts hparse len_dst hlz hc2 hd2
  refine ⟨?_, ?_, ?_⟩
  · unfold reconstruct
    rw [h1]
    simp only [happly]
  · unfold reconstruct
    rw [h2]
    simp only [happly]
  · intro op payload out_img oldD off bs d0 htype hdst hsrc hraw hnum hok
    rw [data_for_op_bsdiff C op payload out_img oldD off bs htype
      (by rw [hdst]; exact List.cons_ne_nil d0 []) hok, hraw, h1, hsrc]
    simp only [happly, hdst]
    have hwd : writeDst bs (new ++ old.drop new.length) [d0] out_img =
        writeAt out_img (d0.start_block * bs)
          (readAt (new ++ old.drop new.length) (0 * bs) (d0.num_blocks * bs)) := rfl
    have harg : readAt (new ++ old.drop new.length) (0 * bs) (d0.num_blocks * bs) = new := by
      rw [Nat.zero_mul, hnum]
      unfold readAt
      rw [List.drop_zero]
      exact List.take_left new _
    rw [hwd, harg]

theorem bsdiff_roundtrip_witness :
    reconstruct idCodecs []
      (write_patch (BSDF2_MAGIC ++ [0, 0, 0]) id id id 1 [(0, 1, 0)] [] [7]) =
      .ok [7] ∧
    reconstruct idCodecs []
      (write_patch BSDIFF40_MAGIC id id id 1 [(0, 1, 0)] [] [7]) = .ok [7] := by
  have h := bsdiff_roundtrip idCodecs id id (fun _ => rfl) (fun _ => rfl)
    [] [7] 1 [(0, 1, 0)] [] [7] (by rfl)
    (by intro t ht; simp at ht; rw [ht]; refine ⟨⟨?_, ?_⟩, ⟨?_, ?_⟩, ?_, ?_⟩ <;> decide)
    (by constructor <;> decide) 0 0 0 (by decide) (by decide) (by decide)
    (by decide) (by decide) (by decide) (by decide)
  exact ⟨h.1, h.2.1⟩

end PayloadDumper
